import Mathlib

/-!
Verification of the printf-style formatting engine in `Format.h` / the
implementation file of the `fmt` namespace (cmarrin/Format).

The engine is shallowly embedded: the format string is a list of byte
values (the terminating NUL is not part of the list; reading at or past
the end of the list yields 0, the terminator), the variadic argument
source is a list of raw machine words consumed front to back, string
memory for `%s` is a list of bytes addressed by position, and the opaque
external float-to-string routine is a function parameter of the
environment.  Machine integer casts (`int32_t`, `intmax_t`, `uint8_t`,
`int8_t`, `uintmax_t`) are modelled with explicit `% 2^w` arithmetic on
`Nat`/`Int`.

The model additionally records, as ghost state, every format-string
offset passed to the sink's `getChar` (field `reads`) and the
flags/width/precision/length/specifier of each parsed directive (field
`dirs`); these fields observe the computation and never influence it.

Loops of the C source are modelled with an explicit fuel argument; every
wrapper supplies fuel that provably dominates the number of iterations
the C loop can perform (each loop advances a cursor bounded by the
length of the relevant list), so the fuelled functions agree with the
source on all inputs.
-/

namespace Fmt

/-- Argument type tags, mirroring `enum class Type` in Format.h
(the source enum is named `Type`, renamed here to avoid the Lean
universe keyword). -/
inductive ArgTy
  | i8 | i16 | i32 | flt | str | ptr
deriving DecidableEq, Repr

/-- Length modifier codes, mirroring `enum class Length`. -/
inductive Length
  | None | H | HH | L | LL | J | Z | T
deriving DecidableEq, Repr

/-- The read-only part of a formatting call: the format string (bytes
before the terminating NUL), the memory holding `%s` string arguments,
and the opaque `toString` float routine (taking the raw float argument
word, the width and the precision actually passed by the engine). -/
structure Env where
  fmt : List Nat
  strMem : List Nat
  ftos : Nat → Int → Int → List Nat

/-- FormatterArgs::getChar — byte of the format string at offset `i`;
offsets at or past the end read the terminating NUL (value 0). -/
def getCh (env : Env) (i : Nat) : Nat := env.fmt.getD i 0

/-- FormatterArgs::getStringChar — byte of string memory at address `p`;
addresses past the end read 0 (the model only represents terminated
string memory, matching the spec's caller obligation). -/
def getStrCh (env : Env) (p : Nat) : Nat := env.strMem.getD p 0

/-- FormatterArgs::getArg — pull the next raw variadic word.  In
`NativePrintArgs` every tag pops exactly one word; the per-tag
reinterpretation (float bits, pointer, uint32) is reflected in how the
callers below use the popped word. -/
def getArg (_t : ArgTy) (args : List Nat) : Nat × List Nat :=
  match args with
  | [] => (0, [])
  | a :: r => (a, r)

/-- Reinterpret a machine word as C `int32_t` (two's complement). -/
def toInt32 (x : Nat) : Int :=
  let m := x % 4294967296
  if m < 2147483648 then (m : Int) else (m : Int) - 4294967296

/-- Reinterpret a machine word as C `intmax_t` (64-bit two's complement). -/
def toInt64 (x : Nat) : Int :=
  let m := x % 18446744073709551616
  if m < 9223372036854775808 then (m : Int) else (m : Int) - 18446744073709551616

/-- Convert an `Int` to C `uintmax_t` (reduce mod 2^64). -/
def toUint64 (i : Int) : Nat := (i % 18446744073709551616).toNat

/-- Convert an `Int` to C `int8_t` (truncate to 8 bits, two's complement). -/
def toInt8 (i : Int) : Int :=
  let m := i % 256
  if m < 128 then m else m - 256

/-- Flag bit for a flag character, mirroring the `case` labels of
`handleFlags` and `enum class Flag` (`-` 0x01, `+` 0x02, space 0x04,
`#` 0x08, `0` 0x10); `Option.none` for every other character. -/
def flagBit (c : Nat) : Option Nat :=
  if c = 45 then some 1
  else if c = 43 then some 2
  else if c = 32 then some 4
  else if c = 35 then some 8
  else if c = 48 then some 16
  else Option.none

/-- Loop body of `handleFlags`: repeatedly read a character, OR the
matching flag bit into `flags` and advance, stopping at the first
non-flag character.  Returns (flags, cursor, getChar log). -/
def handleFlagsLoop (env : Env) : Nat → Nat → Nat → List Nat → Nat × Nat × List Nat
  | 0, fm, flags, rd => (flags, fm, rd)
  | fuel+1, fm, flags, rd =>
    let c := getCh env fm
    let rd := rd ++ [fm]
    match flagBit c with
    | some b => handleFlagsLoop env fuel (fm+1) (flags ||| b) rd
    | Option.none => (flags, fm, rd)

/-- handleFlags — the cursor can advance at most `env.fmt.length` times
(each advance consumes a non-NUL character), so the supplied fuel is
never exhausted. -/
def handleFlags (env : Env) (fm : Nat) (flags : Nat) (rd : List Nat) :
    Nat × Nat × List Nat :=
  handleFlagsLoop env (env.fmt.length + 1) fm flags rd

/-- Loop of `toNumber`: accumulate decimal digits into `n` (a C
`uint32_t`, hence the mod 2^32), tracking whether any digit was seen.
Returns (haveNumber, n, cursor, getChar log). -/
def toNumberLoop (env : Env) : Nat → Nat → Nat → Bool → List Nat → Bool × Nat × Nat × List Nat
  | 0, fm, n, hv, rd => (hv, n, fm, rd)
  | fuel+1, fm, n, hv, rd =>
    let c := getCh env fm
    let rd := rd ++ [fm]
    if c < 48 ∨ 57 < c then (hv, n, fm, rd)
    else toNumberLoop env fuel (fm+1) ((n * 10 + c - 48) % 4294967296) true rd

/-- toNumber with its fuel instantiated (same sufficiency argument as
for `handleFlags`). -/
def toNumber (env : Env) (fm : Nat) (rd : List Nat) : Bool × Nat × Nat × List Nat :=
  toNumberLoop env (env.fmt.length + 1) fm 0 false rd

/-- handleWidth — `*` consumes one i16-tagged argument cast through
`int32_t`; otherwise a digit run gives the width, and -1 means
unspecified.  Returns (width, cursor, args, getChar log). -/
def handleWidth (env : Env) (fm : Nat) (args : List Nat) (rd : List Nat) :
    Int × Nat × List Nat × List Nat :=
  let c := getCh env fm
  let rd := rd ++ [fm]
  if c = 42 then
    let (a, args) := getArg ArgTy.i16 args
    (toInt32 a, fm + 1, args, rd)
  else
    let (hv, n, fm, rd) := toNumber env fm rd
    (if hv then toInt32 n else -1, fm, args, rd)

/-- handleLength — mirrors the if/else chain of the source: `h`/`hh` and
`l`/`ll` consume their letters and advance the cursor, while the `j`,
`z`, `t` branches set the length code without advancing (the source has
no `++fmt` there).  Returns (length, cursor, getChar log). -/
def handleLength (env : Env) (fm : Nat) (rd : List Nat) : Length × Nat × List Nat :=
  let c := getCh env fm
  let rd := rd ++ [fm]
  if c = 104 then
    let c2 := getCh env (fm+1)
    let rd := rd ++ [fm+1]
    if c2 = 104 then (Length.HH, fm+2, rd) else (Length.H, fm+1, rd)
  else if c = 108 then
    let c2 := getCh env (fm+1)
    let rd := rd ++ [fm+1]
    if c2 = 108 then (Length.LL, fm+2, rd) else (Length.L, fm+1, rd)
  else if c = 106 then (Length.J, fm, rd)
  else if c = 122 then (Length.Z, fm, rd)
  else if c = 116 then (Length.T, fm, rd)
  else (Length.None, fm, rd)

/-- getInteger — the length code is ignored; one i16-tagged argument is
popped and cast through `int32_t`. -/
def getInteger (_length : Length) (args : List Nat) : Int × List Nat :=
  let (a, args) := getArg ArgTy.i16 args
  (toInt32 a, args)

/-- Digit-producing loop of `intToString`: digits are generated least
significant first and placed back to front in the buffer, i.e. the
rendered string is (recursive digits of value/base) ++ (digit of
value%base).  64 units of fuel dominate the digit count of any value
below 2^64 in any base the source uses (8, 10, 16). -/
def intToStringAux : Nat → Nat → Bool → Nat → List Nat
  | 0, _, _, _ => []
  | fuel+1, base, cap, value =>
    if value = 0 then []
    else
      let digit := value % base
      intToStringAux fuel base cap (value / base) ++
        [if digit > 9 then digit - 10 + (if cap then 65 else 97) else digit + 48]

/-- MaxIntegerBufferSize from the source (24 bytes). -/
def MaxIntegerBufferSize : Nat := 24

/-- intToString — value 0 renders as "0"; otherwise the digit loop. -/
def intToString (value : Nat) (base : Nat) (cap : Bool) : List Nat :=
  if value = 0 then [48] else intToStringAux 64 base cap value

/-- outInteger — emits sign, alternate-form prefix, left padding and the
digits, in that order.  `value` is the C `uintmax_t` parameter.  Note
the source adds `p - buf` (the offset of the digit string inside the
24-byte back-to-front buffer: 0 when value is 0, otherwise
`MaxIntegerBufferSize - 1 - digitCount`) to its running size, not the
digit count.  Returns (emitted bytes, returned size). -/
def outInteger (value : Nat) (sgn : Bool) (width _precision : Int) (flags : Nat)
    (base : Nat) (cap : Bool) : List Nat × Nat :=
  let value := value % 18446744073709551616
  let (value, out, size, width) :=
    if sgn then
      let signedValue := toInt64 value
      if signedValue < 0 then ((-signedValue).toNat, ([45] : List Nat), 1, width - 1)
      else (value, [], 0, width)
    else (value, [], 0, width)
  let (out, size, width) :=
    if flags &&& 8 ≠ 0 ∧ base ≠ 10 then
      if base = 16 then (out ++ [48, if cap then 88 else 120], size + 2, width - 2)
      else (out ++ [48], size + 1, width - 1)
    else (out, size, width)
  let p := intToString value base cap
  let size := size + (if value = 0 then 0 else MaxIntegerBufferSize - 1 - p.length)
  let pad := width - (p.length : Int)
  let padChar := if flags &&& 16 ≠ 0 then 48 else 32
  let out := out ++ List.replicate pad.toNat padChar
  let size := size + pad.toNat
  (out ++ p, size)

/-- Content loop of `outString`: copy bytes from string memory to the
output until a 0 byte, counting each copied byte. -/
def outStringLoop (env : Env) : Nat → Nat → List Nat → Nat → List Nat × Nat
  | 0, _, out, size => (out, size)
  | fuel+1, p, out, size =>
    let c := getStrCh env p
    if c = 0 then (out, size)
    else outStringLoop env fuel (p+1) (out ++ [c]) (size + 1)

/-- outString — emits the string content, then `width - size` spaces
when `width > size`; the returned size counts only the content bytes
(the padding loop of the source does not touch `size`). -/
def outString (env : Env) (p : Nat) (width _precision : Int) (_flags : Nat) :
    List Nat × Nat :=
  let (out, size) := outStringLoop env (env.strMem.length + 1) p [] 0
  let out := if width > (size : Int) then out ++ List.replicate (width - size).toNat 32 else out
  (out, size)

/-- The switch on the specifier character in `fmt::doprintf`.  `c` is
the character the switch inspects (the source re-reads `getChar(fmt)`
inside the `x`/`X` case, the float case and the default case, always at
the same offset, which the caller has already logged).  The float cases
compute a `Capital` and a `FloatType` in the source, but neither is
passed to the conversion routine; the call is
`toString(buf, float, width, precision < 0 ? 6 : precision)` with an
`int8_t` width and `uint8_t` precision.  Returns (emitted bytes, size
increment, remaining args, cursor after the switch body) — the default
case is the only one that advances the cursor (its `fmt++`). -/
def doSpecifier (env : Env) (c : Nat) (width precision : Int) (flags : Nat)
    (length : Length) (args : List Nat) (fm : Nat) :
    List Nat × Nat × List Nat × Nat :=
  if c = 100 ∨ c = 105 then
    let (v, args) := getInteger length args
    let (o, s) := outInteger (toUint64 v) true width precision flags 10 false
    (o, s, args, fm)
  else if c = 117 then
    let (v, args) := getInteger length args
    let (o, s) := outInteger (toUint64 v) false width precision flags 10 false
    (o, s, args, fm)
  else if c = 111 then
    let (v, args) := getInteger length args
    let (o, s) := outInteger (toUint64 v) false width precision flags 8 false
    (o, s, args, fm)
  else if c = 120 ∨ c = 88 then
    let (v, args) := getInteger length args
    let (o, s) := outInteger (toUint64 v) false width precision flags 16 (c = 88)
    (o, s, args, fm)
  else if c = 102 ∨ c = 70 ∨ c = 101 ∨ c = 69 ∨ c = 103 ∨ c = 71 then
    let (a, args) := getArg ArgTy.flt args
    let buf := env.ftos a (toInt8 width) (if precision < 0 then 6 else precision % 256)
    (buf, 0, args, fm)
  else if c = 99 then
    let (a, args) := getArg ArgTy.i8 args
    ([a % 256], 1, args, fm)
  else if c = 98 then
    let (a, args) := getArg ArgTy.i8 args
    ((if a ≠ 0 then [116, 114, 117, 101] else [102, 97, 108, 115, 101]), 0, args, fm)
  else if c = 115 then
    let (a, args) := getArg ArgTy.str args
    let (o, s) := outString env a width precision flags
    (o, s, args, fm)
  else if c = 112 then
    let (a, args) := getArg ArgTy.ptr args
    let (o, s) := outInteger (a % 18446744073709551616) false width precision flags 16 false
    (o, s, args, fm)
  else
    ([c], 1, args, fm + 1)

/-- State of one `doprintf` call.  `flags` is the C local of the same
name: it lives for the whole call (the source never resets it between
directives).  `reads` logs every offset handed to `getChar`, and `dirs`
logs (flags, width, precision, length, specifier) of each directive at
its dispatch point; both are ghost observations. -/
structure St where
  flags : Nat
  pos : Nat
  args : List Nat
  out : List Nat
  size : Nat
  reads : List Nat
  dirs : List (Nat × Int × Int × Length × Nat)
deriving DecidableEq, Repr

/-- One iteration of the scan loop of `fmt::doprintf`, for a current
character `c` (already read and logged by the loop shell): either copy
a literal character, or parse and dispatch one `%` directive. -/
def doprintfIter (env : Env) (st : St) (c : Nat) : St :=
  if c ≠ 37 then
    { st with pos := st.pos + 1, out := st.out ++ [c], size := st.size + 1 }
  else
    let fm := st.pos + 1
    let (flags, fm, rd) := handleFlags env fm st.flags st.reads
    let (width, fm, args, rd) := handleWidth env fm st.args rd
    let pr := getCh env fm
    let rd := rd ++ [fm]
    let (precision, fm, args, rd) :=
      if pr = 46 then handleWidth env (fm + 1) args rd else ((-1 : Int), fm, args, rd)
    let (length, fm, rd) := handleLength env fm rd
    let c3 := getCh env fm
    let rd := rd ++ [fm]
    let (o, sz, args, fm) := doSpecifier env c3 width precision flags length args fm
    { flags := flags, pos := fm + 1, args := args, out := st.out ++ o,
      size := st.size + sz, reads := rd,
      dirs := st.dirs ++ [(flags, width, precision, length, c3)] }

/-- The scan loop of `fmt::doprintf`: read the character at the cursor;
stop on NUL, otherwise run one iteration and continue. -/
def doprintfLoop (env : Env) : Nat → St → St
  | 0, st => st
  | fuel+1, st =>
    let c := getCh env st.pos
    let st := { st with reads := st.reads ++ [st.pos] }
    if c = 0 then st
    else doprintfLoop env fuel (doprintfIter env st c)

/-- fmt::doprintf — run the scan loop from offset 0 with flags 0 and
size 0.  Each iteration strictly increases the cursor and only recurses
while the cursor is below `env.fmt.length` (the character there is not
NUL), so `env.fmt.length + 1` units of fuel always complete the loop. -/
def doprintf (env : Env) (args : List Nat) : St :=
  doprintfLoop env (env.fmt.length + 1)
    { flags := 0, pos := 0, args := args, out := [], size := 0, reads := [], dirs := [] }

/-- C `uint16_t` value of `n - 1` for `n < 2^16` (the guard of
`NativeFormatArgs::putChar` computes `_size - 1` in `uint16_t`). -/
def u16pred (n : Nat) : Nat := (n + 65535) % 65536

/-- NativeFormatArgs::putChar — store the byte and bump the index only
while the index is below capacity minus one. -/
def bufPut (n : Nat) (st : List Nat × Nat) (c : Nat) : List Nat × Nat :=
  if st.2 < u16pred n then (st.1.set st.2 c, st.2 + 1) else st

/-- fmt::vformat — run `doprintf` with a `NativeFormatArgs` sink: the
emitted characters, followed by the NUL that `end()` sends, are folded
through the guarded buffer write starting from the caller's buffer
`buf` (of capacity `n`, initial contents arbitrary) and index 0.
Returns ((final buffer, final index), returned size). -/
def vformat (buf : List Nat) (n : Nat) (env : Env) (args : List Nat) :
    (List Nat × Nat) × Nat :=
  let st := doprintf env args
  (List.foldl (bufPut n) (buf, 0) (st.out ++ [0]), st.size)

/-- Concrete environment with a given format string and string memory
and a trivial float routine (claims about the float path use an
environment with an arbitrary routine instead). -/
def envOf (f : List Nat) (m : List Nat) : Env :=
  { fmt := f, strMem := m, ftos := fun _ _ _ => [] }

/-- Concrete environment for exercising the float path: the routine
echoes its three parameters so that the wiring is observable. -/
def envFW : Env :=
  { fmt := [37, 102], strMem := [],
    ftos := fun a w p => [a, toUint64 w, toUint64 p] }

/-- Value of a hexadecimal digit character (0 for non-digits). -/
def hexVal (c : Nat) : Nat :=
  if 48 ≤ c ∧ c ≤ 57 then c - 48
  else if 97 ≤ c ∧ c ≤ 102 then c - 87
  else if 65 ≤ c ∧ c ≤ 70 then c - 55
  else 0

/-- Parse a digit string as hexadecimal (most significant digit first). -/
def parseHex (s : List Nat) : Nat :=
  List.foldl (fun acc c => acc * 16 + hexVal c) 0 s

/-- C1: the claim asserts that a format-into-buffer call whose full
output has m ≥ n characters stores the first n-1 characters, writes a
NUL terminator inside the buffer, and returns m.  Evaluating the model
at the failing input — the 10-character literal format "helloworld"
into a 5-byte buffer whose initial bytes are 170 — shows the first 4
characters stored and the full count 10 returned, but the finalizing
NUL is dropped by the guarded `putChar` (the index already equals
capacity − 1), so byte 4 keeps its garbage value 170 and no terminator
exists anywhere in the buffer. -/
theorem c1_truncation_drops_terminator :
    vformat [170, 170, 170, 170, 170] 5
        (envOf [104, 101, 108, 108, 111, 119, 111, 114, 108, 100] []) []
      = (([104, 101, 108, 108, 170], 4), 10) ∧
    (0 : Nat) ∉ [104, 101, 108, 108, 170] := by
  decide

/-- C2: the claim asserts flags are created fresh per `%` directive.
Evaluating the model on "%#x%x" with arguments 255, 255: the `#` flag
parsed for the first directive persists in the call-lifetime `flags`
variable, so the second directive also renders with the `0x` prefix —
output "0xff0xff" instead of the "0xffff" the claim implies. -/
theorem c2_flags_persist_eval :
    (doprintf (envOf [37, 35, 120, 37, 120] []) [255, 255]).out
      = [48, 120, 102, 102, 48, 120, 102, 102] ∧
    [48, 120, 102, 102, 48, 120, 102, 102] ≠ [48, 120, 102, 102, 102, 102] ∧
    (doprintf (envOf [37, 35, 120, 37, 120] []) [255, 255]).dirs.map
        (fun d => d.1) = [8, 8] := by
  decide

/-- C3 counterexample: for the directive "%.d" (a `.` followed by
neither digits nor `*`) the precision recorded at the dispatch point is
-1, not the 0 the claim asserts. -/
theorem c3_counterexample :
    (doprintf (envOf [37, 46, 100] []) [7]).dirs
      = [(0, -1, -1, Length.None, 100)] ∧
    ((-1 : Int) ≠ 0) := by
  decide

/-- C4 counterexample: with the format "%jd", `handleLength` at the
cursor position of the `j` recognizes the modifier (returns
`Length.J`) but leaves the cursor at that same position instead of
advancing past the matched letter, contradicting the claim that every
recognized modifier's letters are consumed. -/
theorem c4_counterexample :
    (handleLength (envOf [37, 106, 100] []) 1 []).1 = Length.J ∧
    (handleLength (envOf [37, 106, 100] []) 1 []).2.1 = 1 ∧
    (1 : Nat) ≠ 2 := by
  decide

/-- C5 counterexample: the value 2^31 = 2147483648 is representable in
the 32-bit argument word fetched for `%x`, but `getInteger` casts it
through `int32_t` and `outInteger` widens that negative value to
`uintmax_t`, so "%x" renders "ffffffff80000000"; parsing that string as
hexadecimal yields 18446744071562067968, not the original value, so the
round trip fails. -/
theorem c5_counterexample :
    (doprintf (envOf [37, 120] []) [2147483648]).out
      = [102, 102, 102, 102, 102, 102, 102, 102, 56, 48, 48, 48, 48, 48, 48, 48] ∧
    parseHex [102, 102, 102, 102, 102, 102, 102, 102, 56, 48, 48, 48, 48, 48, 48, 48]
      = 18446744071562067968 ∧
    (18446744071562067968 : Nat) ≠ 2147483648 := by
  decide

/-- C6 counterexample: `%s` of the two-byte string "hi" with width 5
emits 5 bytes ("hi" plus three spaces) but `outString` returns 2, the
content count only — not the total emitted count the claim asserts. -/
theorem c6_counterexample :
    (outString (envOf [] [104, 105]) 0 5 (-1) 0).1 = [104, 105, 32, 32, 32] ∧
    (outString (envOf [] [104, 105]) 0 5 (-1) 0).2 = 2 ∧
    (2 : Nat) ≠ 5 := by
  decide

/-- C8 counterexample: for the format string "%" (terminating NUL at
offset 1), the engine's getChar log contains offset 3 = nullIndex + 2:
the default case consumes the NUL itself and the loop then tests the
character two past the terminator, violating the claimed bound. -/
theorem c8_counterexample :
    3 ∈ (doprintf (envOf [37] []) []).reads ∧
    (envOf [37] []).fmt.length = 1 ∧ ¬ (3 ≤ 1) := by
  decide

/-- C3 (amended): for every directive in which a `.` is present but is
followed by neither digits nor `*`, the precision value computed by the
`handleWidth` call that the engine makes after consuming the `.` is -1
(the unspecified marker), not 0: `toNumber` reports that no digit was
seen and `handleWidth` then returns -1. -/
theorem c3_bare_dot_precision (env : Env) (fm : Nat) (args rd : List Nat)
    (hstar : getCh env fm ≠ 42)
    (hdig : ¬ (48 ≤ getCh env fm ∧ getCh env fm ≤ 57)) :
    (handleWidth env fm args rd).1 = -1 := by
  have hd : getCh env fm < 48 ∨ 57 < getCh env fm := by omega
  simp [handleWidth, toNumber, toNumberLoop, hstar, hd]

/-- C3 witness: in "%.d" the character after the `.` is `d` (neither a
digit nor `*`), and the precision computed there is -1. -/
theorem c3_bare_dot_precision_witness :
    (handleWidth (envOf [37, 46, 100] []) 2 [] []).1 = -1 :=
  c3_bare_dot_precision (envOf [37, 46, 100] []) 2 [] [] (by decide) (by decide)

/-- C4 (amended): `h`/`hh` and `l`/`ll` are consumed — the cursor is
advanced past the matched letters — while the `j`, `z` and `t` branches
set the corresponding length code but do not advance the cursor (the
specifier switch then sees the modifier letter itself); any other
character leaves the length at `Length.None` without advancing. -/
theorem c4_length_cursor (env : Env) (fm : Nat) (rd : List Nat) :
    (getCh env fm = 104 → getCh env (fm+1) = 104 →
      (handleLength env fm rd).1 = Length.HH ∧ (handleLength env fm rd).2.1 = fm + 2) ∧
    (getCh env fm = 104 → getCh env (fm+1) ≠ 104 →
      (handleLength env fm rd).1 = Length.H ∧ (handleLength env fm rd).2.1 = fm + 1) ∧
    (getCh env fm = 108 → getCh env (fm+1) = 108 →
      (handleLength env fm rd).1 = Length.LL ∧ (handleLength env fm rd).2.1 = fm + 2) ∧
    (getCh env fm = 108 → getCh env (fm+1) ≠ 108 →
      (handleLength env fm rd).1 = Length.L ∧ (handleLength env fm rd).2.1 = fm + 1) ∧
    (getCh env fm = 106 →
      (handleLength env fm rd).1 = Length.J ∧ (handleLength env fm rd).2.1 = fm) ∧
    (getCh env fm = 122 →
      (handleLength env fm rd).1 = Length.Z ∧ (handleLength env fm rd).2.1 = fm) ∧
    (getCh env fm = 116 →
      (handleLength env fm rd).1 = Length.T ∧ (handleLength env fm rd).2.1 = fm) ∧
    (getCh env fm ∉ ([104, 108, 106, 122, 116] : List Nat) →
      (handleLength env fm rd).1 = Length.None ∧ (handleLength env fm rd).2.1 = fm) := by
  refine ⟨fun h1 h2 => ?_, fun h1 h2 => ?_, fun h1 h2 => ?_, fun h1 h2 => ?_,
    fun h1 => ?_, fun h1 => ?_, fun h1 => ?_, fun h1 => ?_⟩ <;>
    simp only [List.mem_cons, List.not_mem_nil, not_or] at * <;>
    first
      | (simp [handleLength, h1, h2])
      | (simp [handleLength, h1])

/-- C4 witness: at a `j` the length code is `Length.J` and the cursor
stays put. -/
theorem c4_length_cursor_witness :
    (handleLength (envOf [106, 100] []) 0 []).1 = Length.J ∧
    (handleLength (envOf [106, 100] []) 0 []).2.1 = 0 :=
  (c4_length_cursor (envOf [106, 100] []) 0 []).2.2.2.2.1 (by decide)

/-- Helper: the content loop of `outString` returns a size that counts
exactly the bytes it appended to the output. -/
theorem outStringLoop_length (env : Env) :
    ∀ (fuel p : Nat) (out : List Nat) (size : Nat),
      (outStringLoop env fuel p out size).1.length + size
        = (outStringLoop env fuel p out size).2 + out.length := by
  intro fuel
  induction fuel with
  | zero => intro p out size; simp [outStringLoop]; omega
  | succ n ih =>
    intro p out size
    by_cases h : getStrCh env p = 0
    · simp [outStringLoop, h]; omega
    · simp only [outStringLoop, h, if_false]
      have := ih (p + 1) (out ++ [getStrCh env p]) (size + 1)
      simp at this
      omega

/-- C6 (amended): for a `%s` directive whose width exceeds the string
content length L, `outString` emits the L content bytes followed by
width − L spaces (right padding), but the count it returns — the value
added to the running size counter — is L, the content length only; the
padding loop does not touch the counter, so the returned count is not
the total number of bytes emitted. -/
theorem c6_outString_pad (env : Env) (p : Nat) (w prec : Int) (fl : Nat)
    (h : ((outStringLoop env (env.strMem.length + 1) p [] 0).2 : Int) < w) :
    outString env p w prec fl
      = ((outStringLoop env (env.strMem.length + 1) p [] 0).1 ++
          List.replicate (w - (outStringLoop env (env.strMem.length + 1) p [] 0).2).toNat 32,
        (outStringLoop env (env.strMem.length + 1) p [] 0).1.length) := by
  have hlen := outStringLoop_length env (env.strMem.length + 1) p [] 0
  simp only [List.length_nil, Nat.add_zero] at hlen
  rcases hl : outStringLoop env (env.strMem.length + 1) p [] 0 with ⟨o, s⟩
  rw [hl] at h hlen
  simp only at h hlen
  simp [outString, hl, h, hlen]

/-- C6 witness: "hi" with width 5 gives "hi" ++ three spaces and the
returned count 2. -/
theorem c6_outString_pad_witness :
    outString (envOf [] [104, 105]) 0 5 (-1) 0
      = ((outStringLoop (envOf [] [104, 105]) ((envOf [] [104, 105]).strMem.length + 1) 0 [] 0).1 ++
          List.replicate (5 - (outStringLoop (envOf [] [104, 105]) ((envOf [] [104, 105]).strMem.length + 1) 0 [] 0).2 : Int).toNat 32,
        (outStringLoop (envOf [] [104, 105]) ((envOf [] [104, 105]).strMem.length + 1) 0 [] 0).1.length) :=
  c6_outString_pad (envOf [] [104, 105]) 0 5 (-1) 0 (by decide)

/-- C7: a `%b` directive pops exactly one argument, writes the literal
bytes of "true" when it is nonzero and of "false" when it is zero, and
adds nothing to the running size counter, so the call's returned size
excludes those characters. -/
theorem c7_bool_directive (a : Nat) (rest : List Nat) :
    (doprintf (envOf [37, 98] []) (a :: rest)).out
      = (if a ≠ 0 then [116, 114, 117, 101] else [102, 97, 108, 115, 101]) ∧
    (doprintf (envOf [37, 98] []) (a :: rest)).size = 0 ∧
    (doprintf (envOf [37, 98] []) (a :: rest)).args = rest := by
  refine ⟨rfl, rfl, rfl⟩

/-- Helper: appending one digit multiplies the parsed value by the base
and adds the digit value. -/
theorem parseHex_append (s : List Nat) (d : Nat) :
    parseHex (s ++ [d]) = parseHex s * 16 + hexVal d := by
  simp [parseHex, List.foldl_append]

/-- Helper: `hexVal` inverts the digit-to-character map of
`intToStringAux` for lowercase hex digits. -/
theorem hexVal_digitChar (d : Nat) (h : d < 16) :
    hexVal (if d > 9 then d - 10 + 97 else d + 48) = d := by
  interval_cases d <;> decide

/-- Helper: parsing the digit string produced by the digit loop of
`intToString` in base 16 recovers the value, given enough fuel for all
its digits. -/
theorem parseHex_intToStringAux :
    ∀ fuel v : Nat, v < 16 ^ fuel →
      parseHex (intToStringAux fuel 16 false v) = v := by
  intro fuel
  induction fuel with
  | zero =>
    intro v hv
    have h0 : v = 0 := by simpa using hv
    subst h0
    simp [intToStringAux, parseHex]
  | succ n ih =>
    intro v hv
    by_cases h0 : v = 0
    · subst h0; simp [intToStringAux, parseHex]
    · have hdiv : v / 16 < 16 ^ n := by
        have hp : v < 16 ^ n * 16 := by rw [← pow_succ]; exact hv
        omega
      simp only [intToStringAux, h0, if_false, Bool.false_eq_true]
      rw [parseHex_append, ih (v / 16) hdiv]
      have h16 : v % 16 < 16 := Nat.mod_lt _ (by norm_num)
      have := hexVal_digitChar (v % 16) h16
      simp only [this]
      omega

/-- Helper: parsing the rendered base-16 string recovers the value. -/
theorem parseHex_intToString (v : Nat) (h : v < 16 ^ 64) :
    parseHex (intToString v 16 false) = v := by
  by_cases h0 : v = 0
  · subst h0; simp [intToString, parseHex, hexVal]
  · simp [intToString, h0, parseHex_intToStringAux 64 v h]

/-- Helper: one unrolling of the scan loop of `doprintf`. -/
theorem doprintfLoop_step (env : Env) (fuel : Nat) (st : St) :
    doprintfLoop env (fuel + 1) st =
      if getCh env st.pos = 0 then { st with reads := st.reads ++ [st.pos] }
      else doprintfLoop env fuel
        (doprintfIter env { st with reads := st.reads ++ [st.pos] } (getCh env st.pos)) :=
  rfl

/-- C5 (amended): formatting v with a plain `%x` directive and parsing
the digit string back as hexadecimal recovers v for every v below 2^31.
(For v in [2^31, 2^32) the `int32_t` cast in `getInteger` sign-extends
through `uintmax_t` and the round trip fails, see the counterexample.) -/
theorem c5_roundtrip (v : Nat) (hv : v < 2147483648) :
    parseHex ((doprintf (envOf [37, 120] []) [v]).out) = v := by
  have e0 : getCh (envOf [37, 120] []) 0 = 37 := by decide
  have e2 : getCh (envOf [37, 120] []) 2 = 0 := by decide
  have hfl : handleFlags (envOf [37, 120] []) 1 0 [0] = (0, 1, [0, 1]) := by decide
  have hwd : handleWidth (envOf [37, 120] []) 1 [v] [0, 1] = (-1, 1, [v], [0, 1, 1, 1]) := rfl
  have hpr : getCh (envOf [37, 120] []) 1 = 120 := by decide
  have hln : handleLength (envOf [37, 120] []) 1 [0, 1, 1, 1, 1]
      = (Length.None, 1, [0, 1, 1, 1, 1, 1]) := by decide
  have hds : doSpecifier (envOf [37, 120] []) 120 (-1) (-1) 0 Length.None [v] 1
      = ((outInteger (toUint64 (toInt32 v)) false (-1) (-1) 0 16 false).1,
         (outInteger (toUint64 (toInt32 v)) false (-1) (-1) 0 16 false).2, [], 1) := rfl
  have hiter : doprintfIter (envOf [37, 120] [])
        { flags := 0, pos := 0, args := [v], out := [], size := 0, reads := [0], dirs := [] } 37
      = { flags := 0, pos := 2, args := [],
          out := (outInteger (toUint64 (toInt32 v)) false (-1) (-1) 0 16 false).1,
          size := (outInteger (toUint64 (toInt32 v)) false (-1) (-1) 0 16 false).2,
          reads := [0, 1, 1, 1, 1, 1, 1], dirs := [(0, -1, -1, Length.None, 120)] } := by
    simp [doprintfIter, hfl, hwd, hpr, hln, hds]
  have hrun : (doprintf (envOf [37, 120] []) [v]).out
      = (outInteger (toUint64 (toInt32 v)) false (-1) (-1) 0 16 false).1 := by
    show (doprintfLoop (envOf [37, 120] []) (2 + 1)
      { flags := 0, pos := 0, args := [v], out := [], size := 0, reads := [], dirs := [] }).out = _
    rw [doprintfLoop_step]
    simp only [e0, reduceIte, List.nil_append]
    rw [hiter, doprintfLoop_step (envOf [37, 120] []) 1]
    simp [e2]
  have h2 : toInt32 v = (v : Int) := by
    simp [toInt32, Nat.mod_eq_of_lt (show v < 4294967296 by omega), hv]
  have h3 : toUint64 ((v : Nat) : Int) = v := by
    simp only [toUint64]
    omega
  have h4 : (outInteger v false (-1) (-1) 0 16 false).1 = intToString v 16 false := by
    have hm : v % 18446744073709551616 = v := Nat.mod_eq_of_lt (by omega)
    have hand8 : (0 : Nat) &&& 8 = 0 := rfl
    have hpad : ((-1 : Int) - ((intToString v 16 false).length : Int)).toNat = 0 := by
      omega
    simp [outInteger, hm, hand8, hpad]
  rw [hrun, h2, h3, h4]
  exact parseHex_intToString v (lt_trans hv (by norm_num))

/-- C5 witness: the round trip at v = 515880687. -/
theorem c5_roundtrip_witness :
    parseHex ((doprintf (envOf [37, 120] []) [515880687]).out) = 515880687 :=
  c5_roundtrip 515880687 (by decide)

/-- C9: for a directive whose specifier character c is outside the
recognized set (and not consumed earlier as a flag, digit, `*`, `.`,
`h` or `l` — `j`, `z`, `t` are allowed, since they do not advance the
cursor), the engine echoes c verbatim, adds exactly 1 to the running
count, fetches no argument, and consumes one extra character: in the
format "%cde" the byte d is skipped (the default case's own cursor
increment plus the loop's per-directive increment) and scanning resumes
at the literal e, so the call completes with output [c, e] and size 2.
This includes c = 37, the second `%` of a `%%` pair. -/
theorem c9_default_echo (c d e : Nat) (args : List Nat)
    (hflag : flagBit c = Option.none)
    (hdig : ¬ (48 ≤ c ∧ c ≤ 57))
    (hstar : c ≠ 42) (hdot : c ≠ 46) (hh : c ≠ 104) (hl : c ≠ 108)
    (hspec : c ∉ ([100, 105, 117, 111, 120, 88, 102, 70, 101, 69, 103, 71,
      99, 98, 115, 112] : List Nat))
    (hc0 : c ≠ 0) (hd0 : d ≠ 0) (he0 : e ≠ 0) (hep : e ≠ 37) :
    (doprintf (envOf [37, c, d, e] []) args).out = [c, e] ∧
    (doprintf (envOf [37, c, d, e] []) args).size = 2 ∧
    (doprintf (envOf [37, c, d, e] []) args).args = args := by
  simp only [List.mem_cons, List.not_mem_nil, or_false, not_or] at hspec
  obtain ⟨hs1, hs2, hs3, hs4, hs5, hs6, hs7, hs8, hs9, hs10, hs11, hs12,
    hs13, hs14, hs15, hs16⟩ := hspec
  have hd' : c < 48 ∨ 57 < c := by omega
  by_cases h106 : c = 106
  · subst h106
    simp [doprintf, doprintfLoop, doprintfIter, handleFlags, handleFlagsLoop,
      flagBit, toNumber, toNumberLoop, handleWidth, handleLength, doSpecifier,
      getCh, getArg, envOf, he0, hep]
  · by_cases h122 : c = 122
    · subst h122
      simp [doprintf, doprintfLoop, doprintfIter, handleFlags, handleFlagsLoop,
        flagBit, toNumber, toNumberLoop, handleWidth, handleLength, doSpecifier,
        getCh, getArg, envOf, he0, hep]
    · by_cases h116 : c = 116
      · subst h116
        simp [doprintf, doprintfLoop, doprintfIter, handleFlags, handleFlagsLoop,
          flagBit, toNumber, toNumberLoop, handleWidth, handleLength, doSpecifier,
          getCh, getArg, envOf, he0, hep]
      · simp [doprintf, doprintfLoop, doprintfIter, handleFlags, handleFlagsLoop,
          toNumber, toNumberLoop, handleWidth, handleLength, doSpecifier,
          getCh, getArg, envOf, hflag, hd', hstar, hdot, hh, hl, h106, h122, h116,
          hs1, hs2, hs3, hs4, hs5, hs6, hs7, hs8, hs9, hs10, hs11, hs12,
          hs13, hs14, hs15, hs16, hc0, he0, hep]

/-- C9 witness: the unrecognized specifier `q` in "%qab" with one
pending argument: `q` is echoed, `a` is skipped, `b` is copied, the
count is 2 and the argument list is untouched. -/
theorem c9_default_echo_witness :
    (doprintf (envOf [37, 113, 97, 98] []) [7]).out = [113, 98] ∧
    (doprintf (envOf [37, 113, 97, 98] []) [7]).size = 2 ∧
    (doprintf (envOf [37, 113, 97, 98] []) [7]).args = [7] :=
  c9_default_echo 113 97 98 [7] (by decide) (by decide) (by decide) (by decide)
    (by decide) (by decide) (by decide) (by decide) (by decide) (by decide) (by decide)

/-- Helper: a position where the format string yields a non-NUL byte is
inside the list of bytes. -/
theorem getCh_pos_lt (env : Env) (i : Nat) (h : getCh env i ≠ 0) :
    i < env.fmt.length := by
  by_contra hn
  push_neg at hn
  exact h (List.getD_eq_default _ _ hn)

/-- Helper: the flags loop keeps the cursor inside the format string and
logs only offsets inside it. -/
theorem handleFlagsLoop_bound (env : Env) :
    ∀ (fuel fm flags : Nat) (rd : List Nat),
      fm ≤ env.fmt.length → (∀ i ∈ rd, i ≤ env.fmt.length + 2) →
      (handleFlagsLoop env fuel fm flags rd).2.1 ≤ env.fmt.length ∧
      (∀ i ∈ (handleFlagsLoop env fuel fm flags rd).2.2, i ≤ env.fmt.length + 2) := by
  intro fuel
  induction fuel with
  | zero =>
    intro fm flags rd hfm hrd
    exact ⟨hfm, hrd⟩
  | succ n ih =>
    intro fm flags rd hfm hrd
    have hrd2 : ∀ i ∈ rd ++ [fm], i ≤ env.fmt.length + 2 := by
      intro i hi
      rcases List.mem_append.1 hi with h | h
      · exact hrd i h
      · simp at h; omega
    cases hb : flagBit (getCh env fm) with
    | none =>
      have hpair : fm ≤ env.fmt.length ∧ ∀ i ∈ rd ++ [fm], i ≤ env.fmt.length + 2 :=
        ⟨hfm, hrd2⟩
      simpa [handleFlagsLoop, hb] using hpair
    | some b =>
      have hc : getCh env fm ≠ 0 := by
        intro h0
        rw [h0] at hb
        simp [flagBit] at hb
      have hlt : fm < env.fmt.length := getCh_pos_lt env fm hc
      simpa [handleFlagsLoop, hb] using
        ih (fm + 1) (flags ||| b) (rd ++ [fm]) (by omega) hrd2

/-- Helper: `handleFlags` keeps the cursor inside the format string. -/
theorem handleFlags_bound (env : Env) (fm flags : Nat) (rd : List Nat)
    (hfm : fm ≤ env.fmt.length) (hrd : ∀ i ∈ rd, i ≤ env.fmt.length + 2) :
    (handleFlags env fm flags rd).2.1 ≤ env.fmt.length ∧
    (∀ i ∈ (handleFlags env fm flags rd).2.2, i ≤ env.fmt.length + 2) :=
  handleFlagsLoop_bound env (env.fmt.length + 1) fm flags rd hfm hrd

/-- Helper: the digit loop keeps the cursor inside the format string and
logs only offsets inside it. -/
theorem toNumberLoop_bound (env : Env) :
    ∀ (fuel fm n : Nat) (hv : Bool) (rd : List Nat),
      fm ≤ env.fmt.length → (∀ i ∈ rd, i ≤ env.fmt.length + 2) →
      (toNumberLoop env fuel fm n hv rd).2.2.1 ≤ env.fmt.length ∧
      (∀ i ∈ (toNumberLoop env fuel fm n hv rd).2.2.2, i ≤ env.fmt.length + 2) := by
  intro fuel
  induction fuel with
  | zero =>
    intro fm n hv rd hfm hrd
    exact ⟨hfm, hrd⟩
  | succ k ih =>
    intro fm n hv rd hfm hrd
    have hrd2 : ∀ i ∈ rd ++ [fm], i ≤ env.fmt.length + 2 := by
      intro i hi
      rcases List.mem_append.1 hi with h | h
      · exact hrd i h
      · simp at h; omega
    by_cases hc : getCh env fm < 48 ∨ 57 < getCh env fm
    · have hpair : fm ≤ env.fmt.length ∧ ∀ i ∈ rd ++ [fm], i ≤ env.fmt.length + 2 :=
        ⟨hfm, hrd2⟩
      simpa [toNumberLoop, hc] using hpair
    · have hne : getCh env fm ≠ 0 := by omega
      have hlt : fm < env.fmt.length := getCh_pos_lt env fm hne
      simpa [toNumberLoop, hc] using
        ih (fm + 1) ((n * 10 + getCh env fm - 48) % 4294967296) true (rd ++ [fm])
          (by omega) hrd2

/-- Helper: `handleWidth` keeps the cursor inside the format string and
logs only bounded offsets. -/
theorem handleWidth_bound (env : Env) (fm : Nat) (args rd : List Nat)
    (hfm : fm ≤ env.fmt.length) (hrd : ∀ i ∈ rd, i ≤ env.fmt.length + 2) :
    (handleWidth env fm args rd).2.1 ≤ env.fmt.length ∧
    (∀ i ∈ (handleWidth env fm args rd).2.2.2, i ≤ env.fmt.length + 2) := by
  have hrd2 : ∀ i ∈ rd ++ [fm], i ≤ env.fmt.length + 2 := by
    intro i hi
    rcases List.mem_append.1 hi with h | h
    · exact hrd i h
    · simp at h; omega
  by_cases hc : getCh env fm = 42
  · have hne : getCh env fm ≠ 0 := by omega
    have hlt : fm < env.fmt.length := getCh_pos_lt env fm hne
    rcases ha : getArg ArgTy.i16 args with ⟨a, args2⟩
    constructor
    · simp [handleWidth, hc, ha]; omega
    · simpa [handleWidth, hc, ha] using hrd2
  · have hb := toNumberLoop_bound env (env.fmt.length + 1) fm 0 false (rd ++ [fm]) hfm hrd2
    rcases ht : toNumberLoop env (env.fmt.length + 1) fm 0 false (rd ++ [fm])
      with ⟨hv, n, fm2, rd2⟩
    rw [ht] at hb
    simpa [handleWidth, hc, toNumber, ht] using hb

/-- Helper: `handleLength` keeps the cursor inside the format string and
logs only bounded offsets. -/
theorem handleLength_bound (env : Env) (fm : Nat) (rd : List Nat)
    (hfm : fm ≤ env.fmt.length) (hrd : ∀ i ∈ rd, i ≤ env.fmt.length + 2) :
    (handleLength env fm rd).2.1 ≤ env.fmt.length ∧
    (∀ i ∈ (handleLength env fm rd).2.2, i ≤ env.fmt.length + 2) := by
  have hrd2 : ∀ i ∈ rd ++ [fm], i ≤ env.fmt.length + 2 := by
    intro i hi
    rcases List.mem_append.1 hi with h | h
    · exact hrd i h
    · simp at h; omega
  by_cases h104 : getCh env fm = 104
  · have hlt : fm < env.fmt.length := getCh_pos_lt env fm (by omega)
    have hrd3 : ∀ i ∈ (rd ++ [fm]) ++ [fm + 1], i ≤ env.fmt.length + 2 := by
      intro i hi
      rcases List.mem_append.1 hi with h | h
      · exact hrd2 i h
      · simp at h; omega
    by_cases h2 : getCh env (fm + 1) = 104
    · have hlt2 : fm + 1 < env.fmt.length := getCh_pos_lt env (fm + 1) (by omega)
      constructor
      · simp [handleLength, h104, h2]; omega
      · simpa [handleLength, h104, h2] using hrd3
    · constructor
      · simp [handleLength, h104, h2]; omega
      · simpa [handleLength, h104, h2] using hrd3
  · by_cases h108 : getCh env fm = 108
    · have hlt : fm < env.fmt.length := getCh_pos_lt env fm (by omega)
      have hrd3 : ∀ i ∈ (rd ++ [fm]) ++ [fm + 1], i ≤ env.fmt.length + 2 := by
        intro i hi
        rcases List.mem_append.1 hi with h | h
        · exact hrd2 i h
        · simp at h; omega
      by_cases h2 : getCh env (fm + 1) = 108
      · have hlt2 : fm + 1 < env.fmt.length := getCh_pos_lt env (fm + 1) (by omega)
        constructor
        · simp [handleLength, h104, h108, h2]; omega
        · simpa [handleLength, h104, h108, h2] using hrd3
      · constructor
        · simp [handleLength, h104, h108, h2]; omega
        · simpa [handleLength, h104, h108, h2] using hrd3
    · have hpair : fm ≤ env.fmt.length ∧ ∀ i ∈ rd ++ [fm], i ≤ env.fmt.length + 2 :=
        ⟨hfm, hrd2⟩
      by_cases h106 : getCh env fm = 106
      · simpa [handleLength, h104, h108, h106] using hpair
      · by_cases h122 : getCh env fm = 122
        · simpa [handleLength, h104, h108, h106, h122] using hpair
        · by_cases h116 : getCh env fm = 116
          · simpa [handleLength, h104, h108, h106, h116, h122] using hpair
          · simpa [handleLength, h104, h108, h106, h122, h116] using hpair

/-- Helper: the specifier switch advances the cursor by at most one (the
default case's `fmt++`; every recognized case leaves it unchanged). -/
theorem doSpecifier_pos (env : Env) (c : Nat) (w p : Int) (fl : Nat) (len : Length)
    (args : List Nat) (fm : Nat) :
    (doSpecifier env c w p fl len args fm).2.2.2 ≤ fm + 1 := by
  unfold doSpecifier
  split_ifs <;> first | exact Nat.le_succ fm | exact Nat.le_refl (fm + 1)

/-- Helper: a non-`%` character is copied verbatim and the cursor moves
one position. -/
theorem doprintfIter_lit (env : Env) (st : St) (c : Nat) (h : c ≠ 37) :
    doprintfIter env st c
      = { st with pos := st.pos + 1, out := st.out ++ [c], size := st.size + 1 } := by
  unfold doprintfIter
  rw [if_pos h]

/-- Helper: one non-terminal iteration of the scan loop keeps every
logged offset, and the resulting cursor, within two positions of the end
of the format string. -/
theorem doprintfIter_bound (env : Env) (st : St)
    (h0 : getCh env st.pos ≠ 0)
    (hrd : ∀ i ∈ st.reads, i ≤ env.fmt.length + 2) :
    (∀ i ∈ (doprintfIter env st (getCh env st.pos)).reads, i ≤ env.fmt.length + 2) ∧
    (doprintfIter env st (getCh env st.pos)).pos ≤ env.fmt.length + 2 := by
  have hpos : st.pos < env.fmt.length := getCh_pos_lt env st.pos h0
  by_cases h37 : getCh env st.pos = 37
  · rw [h37]
    have bfl := handleFlags_bound env (st.pos + 1) st.flags st.reads (by omega) hrd
    rcases hfl : handleFlags env (st.pos + 1) st.flags st.reads with ⟨fl1, fm1, rd1⟩
    rw [hfl] at bfl
    simp only at bfl
    have bwd := handleWidth_bound env fm1 st.args rd1 bfl.1 bfl.2
    rcases hwd : handleWidth env fm1 st.args rd1 with ⟨w2, fm2, args2, rd2⟩
    rw [hwd] at bwd
    simp only at bwd
    have hrd3 : ∀ i ∈ rd2 ++ [fm2], i ≤ env.fmt.length + 2 := by
      intro i hi
      rcases List.mem_append.1 hi with h | h
      · exact bwd.2 i h
      · simp at h
        omega
    -- the precision step: either the `.` branch or the pass-through
    have hprec : ∀ pr3 fm3 args3 rd3,
        (if getCh env fm2 = 46 then handleWidth env (fm2 + 1) args2 (rd2 ++ [fm2])
         else ((-1 : Int), fm2, args2, rd2 ++ [fm2])) = (pr3, fm3, args3, rd3) →
        fm3 ≤ env.fmt.length ∧ ∀ i ∈ rd3, i ≤ env.fmt.length + 2 := by
      intro pr3 fm3 args3 rd3 heq
      by_cases hdot : getCh env fm2 = 46
      · have hlt2 : fm2 < env.fmt.length := getCh_pos_lt env fm2 (by omega)
        have bp := handleWidth_bound env (fm2 + 1) args2 (rd2 ++ [fm2]) (by omega) hrd3
        rw [hdot, if_pos rfl] at heq
        rw [heq] at bp
        exact bp
      · rw [if_neg hdot] at heq
        injection heq with h1 hrest
        injection hrest with h2 hrest2
        injection hrest2 with h3 h4
        subst h2; subst h4
        exact ⟨bwd.1, hrd3⟩
    rcases hpc : (if getCh env fm2 = 46 then handleWidth env (fm2 + 1) args2 (rd2 ++ [fm2])
        else ((-1 : Int), fm2, args2, rd2 ++ [fm2])) with ⟨pr3, fm3, args3, rd3⟩
    have bpc := hprec pr3 fm3 args3 rd3 hpc
    have bln := handleLength_bound env fm3 rd3 bpc.1 bpc.2
    rcases hln : handleLength env fm3 rd3 with ⟨len4, fm4, rd4⟩
    rw [hln] at bln
    simp only at bln
    have hrd5 : ∀ i ∈ rd4 ++ [fm4], i ≤ env.fmt.length + 2 := by
      intro i hi
      rcases List.mem_append.1 hi with h | h
      · exact bln.2 i h
      · simp at h
        omega
    have bds := doSpecifier_pos env (getCh env fm4) w2 pr3 fl1 len4 args3 fm4
    have bln1 := bln.1
    constructor
    · intro i hi
      simp only [doprintfIter, h37] at hi
      simp only [ne_eq, not_true_eq_false, if_false] at hi
      simp only [hfl] at hi
      simp only [hwd] at hi
      simp only [hpc] at hi
      simp only [hln] at hi
      exact hrd5 i hi
    · simp only [doprintfIter, h37]
      simp only [ne_eq, not_true_eq_false, if_false]
      simp only [hfl]
      simp only [hwd]
      simp only [hpc]
      simp only [hln]
      show (doSpecifier env (getCh env fm4) w2 pr3 fl1 len4 args3 fm4).2.2.2 + 1
          ≤ env.fmt.length + 2
      omega
  · constructor
    · intro i hi
      rw [doprintfIter_lit env st (getCh env st.pos) h37] at hi
      exact hrd i hi
    · rw [doprintfIter_lit env st (getCh env st.pos) h37]
      show st.pos + 1 ≤ env.fmt.length + 2
      omega

/-- Helper: every offset the scan loop hands to getChar is at most two
past the end of the format string, whatever the starting state, as long
as its own logged offsets and cursor already satisfy that bound. -/
theorem doprintfLoop_bound (env : Env) :
    ∀ (fuel : Nat) (st : St), st.pos ≤ env.fmt.length + 2 →
      (∀ i ∈ st.reads, i ≤ env.fmt.length + 2) →
      ∀ i ∈ (doprintfLoop env fuel st).reads, i ≤ env.fmt.length + 2 := by
  intro fuel
  induction fuel with
  | zero =>
    intro st h1 h2
    simpa [doprintfLoop] using h2
  | succ n ih =>
    intro st h1 h2
    have h2b : ∀ i ∈ st.reads ++ [st.pos], i ≤ env.fmt.length + 2 := by
      intro i hi
      rcases List.mem_append.1 hi with h | h
      · exact h2 i h
      · simp at h; omega
    rw [doprintfLoop_step]
    by_cases hc : getCh env st.pos = 0
    · simpa [hc] using h2b
    · rw [if_neg hc]
      have hb := doprintfIter_bound env { st with reads := st.reads ++ [st.pos] }
        (by simpa using hc) (by simpa using h2b)
      exact ih _ hb.2 hb.1

/-- C8 (amended): the engine can read past the terminating NUL: every
offset handed to the sink's getChar lies between 0 and nullIndex + 2
(for a NUL-free format byte list, nullIndex is its length), and the
bound nullIndex + 2 is attained — with a bare trailing `%` the default
case consumes the NUL itself and the next loop test reads two past it —
so the claimed bound of nullIndex itself does not hold. -/
theorem c8_reads_bound (env : Env) (args : List Nat) :
    ∀ i ∈ (doprintf env args).reads, i ≤ env.fmt.length + 2 :=
  doprintfLoop_bound env (env.fmt.length + 1)
    { flags := 0, pos := 0, args := args, out := [], size := 0, reads := [], dirs := [] }
    (by simp) (by simp)

/-- C8 witness: the bound applied to the offset 3 actually read on the
format "%". -/
theorem c8_reads_bound_witness :
    (3 : Nat) ≤ (envOf [37] []).fmt.length + 2 :=
  c8_reads_bound (envOf [37] []) [] 3 (by decide)

/-- C10: a float-specifier directive (`f`, `F`, `e`, `E`, `g`, `G`)
pops exactly one float-tagged argument, writes exactly the text the
opaque float-to-string routine produces for it (with width -1 and the
default precision 6 here, since the directive carries neither), and
adds nothing to the running size counter: the call's returned size
excludes the float output entirely. -/
theorem c10_float_uncounted (env : Env) (s a : Nat) (rest : List Nat)
    (hs : s ∈ ([102, 70, 101, 69, 103, 71] : List Nat))
    (hfmt : env.fmt = [37, s]) :
    (doprintf env (a :: rest)).out = env.ftos a (-1) 6 ∧
    (doprintf env (a :: rest)).size = 0 ∧
    (doprintf env (a :: rest)).args = rest := by
  have ht8 : toInt8 (-1) = -1 := by decide
  have hprec : (if (-1 : Int) < 0 then (6 : Int) else (-1 : Int) % 256) = 6 := by decide
  simp only [List.mem_cons, List.not_mem_nil, or_false] at hs
  rcases hs with h | h | h | h | h | h <;> subst h <;>
    simp [doprintf, hfmt, doprintfLoop, doprintfIter, handleFlags, handleFlagsLoop,
      flagBit, toNumber, toNumberLoop, handleWidth, handleLength, doSpecifier,
      getCh, getArg, ht8, hprec]

/-- C10 witness: "%f" under an argument-echoing float routine. -/
theorem c10_float_uncounted_witness :
    (doprintf envFW [5, 9]).out = envFW.ftos 5 (-1) 6 ∧
    (doprintf envFW [5, 9]).size = 0 ∧
    (doprintf envFW [5, 9]).args = [9] :=
  c10_float_uncounted envFW 102 5 [9] (by decide) rfl

end Fmt
